import Mathlib

/-!
Verification of the Article Enrichment Cache of `newsie-rocks/api`.

The development shallowly embeds the core of the repository:

* `src/api/src/db/postgres/util.rs` — the `Vector` codec (`Vector::to_sql`,
  `Vector::from_sql`): 32-bit floats are represented by their IEEE-754 bit
  patterns, i.e. natural numbers `< 2^32` (`f32::to_be_bytes` /
  `f32::from_be_bytes` are mutually inverse bijections between an `f32` and
  its big-endian 4-byte pattern, so bit-for-bit claims are exactly claims
  about these patterns); byte strings are lists of naturals `< 256`.
* `src/api/src/svc/art.rs` — the `ArticleService` (`process_summaries`,
  `process_article`, `summarize`, `extract_keywords`, `get_embeddings`).
* `src/api/src/db/postgres/summary.rs` — the store adapter
  (`search_summaries_by_urls`, `insert_summaries`) over the `summaries`
  table created with `url TEXT NOT NULL UNIQUE` and `id UUID PRIMARY KEY`.

Effectful Rust code is embedded by explicit state passing: the Postgres
table is a list of rows, the OpenAI client is a record of response
functions, and each service call returns its value together with the calls
it made (a trace).  `Option` layers panics: `none` models a Rust panic,
`some (Except.error e)` a returned `Err(e)`, `some (Except.ok a)` an
`Ok(a)`.
-/

namespace Newsie

/-! ### Byte-level primitives (big-endian, as in `u16::to_be_bytes` etc.) -/

/-- `u16::to_be_bytes` / `u32 (f32 bits)::to_be_bytes`: big-endian bytes of a
natural number, most significant first.  `beBytes2 n` is the 2-byte encoding
(faithful for `n < 2^16`), `beBytes4 n` the 4-byte one (faithful for
`n < 2^32`). -/
def beBytes2 (n : Nat) : List Nat :=
  [n / 256 % 256, n % 256]

/-- Big-endian 4-byte encoding of a 32-bit pattern. -/
def beBytes4 (n : Nat) : List Nat :=
  [n / 16777216 % 256, n / 65536 % 256, n / 256 % 256, n % 256]

/-- `u16::from_be_bytes` / `u32::from_be_bytes`: big-endian value of a byte
list. -/
def beVal (bs : List Nat) : Nat :=
  bs.foldl (fun acc b => acc * 256 + b) 0

/-- `std::io::Read::read_exact` on a `&[u8]`: succeeds returning the first
`k` bytes and the rest iff at least `k` bytes remain, otherwise fails with
an unexpected-eof error. -/
def readExact (k : Nat) (buf : List Nat) : Except String (List Nat × List Nat) :=
  if k ≤ buf.length then Except.ok (buf.take k, buf.drop k)
  else Except.error "failed to fill whole buffer"

/-- Whether an `Except` is an error. -/
def isErr {ε α : Type} : Except ε α → Bool
  | Except.error _ => true
  | Except.ok _ => false

/-! ### The codec: `Vector::to_sql` and `Vector::from_sql`
(`src/api/src/db/postgres/util.rs`) -/

/-- `Vector::to_sql`: `let dim: u16 = self.0.len().try_into()?` fails iff the
length exceeds `u16::MAX = 65535`; otherwise the wire format is the 2-byte
big-endian dimension, a 2-byte zero (reserved), then each float's 4 big-endian
bytes in order. -/
def toSql (v : List Nat) : Except String (List Nat) :=
  if v.length ≤ 65535 then
    Except.ok (beBytes2 v.length ++ beBytes2 0 ++ (v.map beBytes4).flatten)
  else
    Except.error "out of range integral type conversion attempted"

/-- The float-reading loop of `Vector::from_sql`: `dim` times, read 4 bytes
and decode one float (its 32-bit pattern). -/
def readFloats : Nat → List Nat → Except String (List Nat)
  | 0, _ => Except.ok []
  | n + 1, buf =>
    match readExact 4 buf with
    | Except.error e => Except.error e
    | Except.ok (b, rest) =>
      match readFloats n rest with
      | Except.error e => Except.error e
      | Except.ok vs => Except.ok (beVal b :: vs)

/-- `Vector::from_sql`: read a 2-byte big-endian `dim`, a 2-byte reserved
field which must be zero (`expected unused to be 0` otherwise), then `dim`
4-byte big-endian floats.  Bytes beyond those consumed are never examined. -/
def fromSql (raw : List Nat) : Except String (List Nat) :=
  match readExact 2 raw with
  | Except.error e => Except.error e
  | Except.ok (b1, r1) =>
    let dim := beVal b1
    match readExact 2 r1 with
    | Except.error e => Except.error e
    | Except.ok (b2, r2) =>
      if beVal b2 ≠ 0 then Except.error "expected unused to be 0"
      else readFloats dim r2

/-! ### Codec lemmas -/

theorem beBytes2_length (n : Nat) : (beBytes2 n).length = 2 := rfl

theorem beBytes4_length (n : Nat) : (beBytes4 n).length = 4 := rfl

theorem beVal_beBytes2 (n : Nat) (h : n ≤ 65535) : beVal (beBytes2 n) = n := by
  simp only [beBytes2, beVal, List.foldl]
  omega

theorem beVal_beBytes4 (n : Nat) (h : n < 4294967296) : beVal (beBytes4 n) = n := by
  simp only [beBytes4, beVal, List.foldl]
  omega

/-- Reading floats off an exact encoding (with anything appended) recovers
the encoded patterns. -/
theorem readFloats_flatten (v : List Nat) (hv : ∀ x ∈ v, x < 4294967296)
    (rest : List Nat) :
    readFloats v.length ((v.map beBytes4).flatten ++ rest) = Except.ok v := by
  induction v generalizing rest with
  | nil => simp [readFloats]
  | cons x xs ih =>
    have hx : x < 4294967296 := hv x (List.mem_cons_self x xs)
    have hxs : ∀ y ∈ xs, y < 4294967296 := fun y hy => hv y (List.mem_cons_of_mem x hy)
    simp only [List.map_cons, List.flatten_cons, List.length_cons]
    rw [List.append_assoc]
    have hlen : (4 : Nat) ≤ (beBytes4 x ++ ((xs.map beBytes4).flatten ++ rest)).length := by
      simp [beBytes4]
    have htake : (beBytes4 x ++ ((xs.map beBytes4).flatten ++ rest)).take 4 = beBytes4 x := by
      rw [show (4 : Nat) = (beBytes4 x).length from rfl]
      exact List.take_left _ _
    have hdrop : (beBytes4 x ++ ((xs.map beBytes4).flatten ++ rest)).drop 4 =
        (xs.map beBytes4).flatten ++ rest := by
      rw [show (4 : Nat) = (beBytes4 x).length from rfl]
      exact List.drop_left _ _
    simp only [readFloats, readExact, if_pos hlen, htake, hdrop, ih hxs rest,
      beVal_beBytes4 x hx]

/-- If fewer bytes remain than the loop needs, the float-reading loop fails. -/
theorem readFloats_short (n : Nat) (buf : List Nat) (h : buf.length < 4 * n) :
    isErr (readFloats n buf) = true := by
  induction n generalizing buf with
  | zero => omega
  | succ m ih =>
    by_cases h4 : (4 : Nat) ≤ buf.length
    · have hrest : (buf.drop 4).length < 4 * m := by
        simp only [List.length_drop]; omega
      simp only [readFloats, readExact, if_pos h4]
      have := ih (buf.drop 4) hrest
      cases hr : readFloats m (buf.drop 4) with
      | error e => simp [isErr]
      | ok vs => rw [hr] at this; simp [isErr] at this
    · simp [readFloats, readExact, if_neg h4, isErr]

/-- The floats spelled out by a payload: float `i` is the big-endian value
of payload bytes `4*i .. 4*i+3`. -/
def decodedFloats : Nat → List Nat → List Nat
  | 0, _ => []
  | n + 1, p => beVal (p.take 4) :: decodedFloats n (p.drop 4)

/-- With enough payload bytes the float-reading loop succeeds and yields the
chunked big-endian values. -/
theorem readFloats_ok (n : Nat) (p : List Nat) (hp : 4 * n ≤ p.length) :
    readFloats n p = Except.ok (decodedFloats n p) := by
  induction n generalizing p with
  | zero => simp [readFloats, decodedFloats]
  | succ m ih =>
    have h4 : (4 : Nat) ≤ p.length := by omega
    have hrest : 4 * m ≤ (p.drop 4).length := by
      simp only [List.length_drop]; omega
    simp [readFloats, readExact, if_pos h4, decodedFloats, ih (p.drop 4) hrest]

/-- The decoded floats depend only on the first `4 * n` payload bytes. -/
theorem decodedFloats_take (n : Nat) (p : List Nat) :
    decodedFloats n (p.take (4 * n)) = decodedFloats n p := by
  induction n generalizing p with
  | zero => rfl
  | succ m ih =>
    have h1 : (p.take (4 * (m + 1))).take 4 = p.take 4 := by
      rw [List.take_take]
      have e : min 4 (4 * (m + 1)) = 4 := by omega
      rw [e]
    have h2 : (p.take (4 * (m + 1))).drop 4 = (p.drop 4).take (4 * m) := by
      rw [List.drop_take]
      have e : 4 * (m + 1) - 4 = 4 * m := by omega
      rw [e]
    simp only [decodedFloats, h1, h2, ih (p.drop 4)]

/-- `read_exact` at the length of a known leading block returns that block
and the remainder. -/
theorem readExact_prefix (b rest : List Nat) :
    readExact b.length (b ++ rest) = Except.ok (b, rest) := by
  have h : b.length ≤ (b ++ rest).length := by
    simp [List.length_append]
  simp [readExact, if_pos h, List.take_left, List.drop_left]

/-- Decoding a well-formed header (count `n`, reserved zero) reduces to the
float-reading loop on the remaining payload. -/
theorem fromSql_header (n : Nat) (hn : n ≤ 65535) (p : List Nat) :
    fromSql (beBytes2 n ++ beBytes2 0 ++ p) = readFloats n p := by
  have e1 : readExact 2 (beBytes2 n ++ beBytes2 0 ++ p) =
      Except.ok (beBytes2 n, beBytes2 0 ++ p) := by
    rw [List.append_assoc]
    have h := readExact_prefix (beBytes2 n) (beBytes2 0 ++ p)
    rwa [beBytes2_length] at h
  have e2 : readExact 2 (beBytes2 0 ++ p) = Except.ok (beBytes2 0, p) := by
    have h := readExact_prefix (beBytes2 0) p
    rwa [beBytes2_length] at h
  simp only [fromSql, e1, e2, ne_eq, ite_not, beVal_beBytes2 0 (by omega),
    beVal_beBytes2 n hn]
  simp

/-- C3: for every sequence of 32-bit floats (given by their bit patterns)
whose length is at most 65535, including the empty sequence, decoding the
encoding yields exactly the same sequence, bit for bit and in order. -/
theorem C3_codec_roundtrip (v : List Nat) (hlen : v.length ≤ 65535)
    (hbits : ∀ x ∈ v, x < 4294967296) :
    ∃ bytes, toSql v = Except.ok bytes ∧ fromSql bytes = Except.ok v := by
  refine ⟨beBytes2 v.length ++ beBytes2 0 ++ (v.map beBytes4).flatten, ?_, ?_⟩
  · simp [toSql, hlen]
  · rw [fromSql_header v.length hlen]
    have h := readFloats_flatten v hbits []
    rwa [List.append_nil] at h

/-- C3 witness: the round trip evaluated on the two-float vector with the
bit patterns of `1.0f32` and `-2.0f32`. -/
theorem C3_codec_roundtrip_witness :
    ∃ bytes, toSql [1065353216, 3221225472] = Except.ok bytes ∧
      fromSql bytes = Except.ok [1065353216, 3221225472] :=
  C3_codec_roundtrip [1065353216, 3221225472] (by decide) (by decide)

/-- C4: the codec's error behaviour.  (1) decode fails whenever the input is
shorter than the `4 + 4*dim` bytes implied by the declared 16-bit count;
(2) decode fails with the reserved-field format error whenever the 2-byte
reserved field is nonzero; (3) encode fails (rather than truncating)
whenever the vector's length exceeds 65535. -/
theorem C4_codec_errors :
    (∀ raw : List Nat, 4 ≤ raw.length →
        raw.length < 4 + 4 * beVal (raw.take 2) → isErr (fromSql raw) = true) ∧
    (∀ raw : List Nat, 4 ≤ raw.length → beVal ((raw.drop 2).take 2) ≠ 0 →
        fromSql raw = Except.error "expected unused to be 0") ∧
    (∀ v : List Nat, 65535 < v.length → isErr (toSql v) = true) := by
  have hread : ∀ raw : List Nat, 4 ≤ raw.length →
      readExact 2 raw = Except.ok (raw.take 2, raw.drop 2) ∧
      readExact 2 (raw.drop 2) = Except.ok ((raw.drop 2).take 2, (raw.drop 2).drop 2) := by
    intro raw h4
    constructor
    · rw [readExact, if_pos (by omega)]
    · rw [readExact, if_pos (by simp [List.length_drop]; omega)]
  refine ⟨?_, ?_, ?_⟩
  · intro raw h4 hshort
    obtain ⟨e1, e2⟩ := hread raw h4
    simp only [fromSql, e1, e2, ne_eq, ite_not]
    by_cases hz : beVal ((raw.drop 2).take 2) = 0
    · rw [if_pos hz]
      apply readFloats_short
      simp only [List.length_drop]
      omega
    · rw [if_neg hz]
      rfl
  · intro raw h4 hz
    obtain ⟨e1, e2⟩ := hread raw h4
    simp only [fromSql, e1, e2, ne_eq, ite_not]
    rw [if_neg hz]
  · intro v hv
    rw [toSql, if_neg (by omega)]
    rfl

/-- C4 witness: a truncated input (declared count 2, only one float
present), a nonzero reserved field, and an encode of 65536 floats. -/
theorem C4_codec_errors_witness :
    isErr (fromSql [0, 2, 0, 0, 63, 128, 0, 0]) = true ∧
    fromSql [0, 0, 0, 7] = Except.error "expected unused to be 0" ∧
    isErr (toSql (List.replicate 65536 0)) = true :=
  ⟨C4_codec_errors.1 [0, 2, 0, 0, 63, 128, 0, 0] (by decide) (by decide),
   C4_codec_errors.2.1 [0, 0, 0, 7] (by decide) (by decide),
   C4_codec_errors.2.2 (List.replicate 65536 0) (by rw [List.length_replicate]; omega)⟩

/-- C10: decode accepts over-long input.  For any header with count
`n ≤ 65535` and zero reserved field followed by a payload of at least
`4 * n` bytes, decode succeeds and returns exactly the `n` floats read from
the first `4 * n` payload bytes, silently ignoring everything after them. -/
theorem C10_decode_ignores_trailing (n : Nat) (p : List Nat)
    (hn : n ≤ 65535) (hp : 4 * n ≤ p.length) :
    fromSql (beBytes2 n ++ beBytes2 0 ++ p) =
      Except.ok (decodedFloats n (p.take (4 * n))) := by
  rw [fromSql_header n hn p, readFloats_ok n p hp, decodedFloats_take]

/-- C10 witness: count 1 with six payload bytes; the two trailing bytes are
ignored. -/
theorem C10_decode_ignores_trailing_witness :
    fromSql (beBytes2 1 ++ beBytes2 0 ++ [63, 128, 0, 0, 9, 9]) =
      Except.ok (decodedFloats 1 ([63, 128, 0, 0, 9, 9].take 4)) :=
  C10_decode_ignores_trailing 1 [63, 128, 0, 0, 9, 9] (by decide) (by decide)

/-! ### Data model (`src/api/src/mdl/mod.rs`, `src/api/src/error.rs`)

A `Uuid` is modelled as an opaque natural number.  `Summary.embeddings`
holds the f32 bit patterns of the `Vector`. -/

/-- Uuid, modelled opaquely. -/
abbrev Uuid := Nat

/-- `mdl::Summary`: one enrichment record. -/
structure Summary where
  id : Uuid
  url : String
  summary : String
  keywords : List String
  embeddings : List Nat
deriving Repr, DecidableEq

/-- `error::Error`, with the `(message, details)` payloads of the Rust
enum. -/
inductive Error where
  | invalidRequest : String → Option String → Error
  | notFound : String → Option String → Error
  | unauthenticated : String → Option String → Error
  | internal : String → Option String → Error
deriving Repr, DecidableEq

/-- `impl From<async_openai::error::OpenAIError> for Error`:
`Error::Internal(format!("OpenAI error ({value})"), None)`.  The underlying
cause is carried in the message. -/
def ofOpenAIError (cause : String) : Error :=
  Error.internal ("OpenAI error (" ++ cause ++ ")") none

/-! ### The OpenAI collaborator (`async_openai` types used by `svc/art.rs`)

The client is a record of response functions: calling it is pure function
application, with `Except.error` an `Err(OpenAIError)` whose display string
is the payload. -/

/-- A chat completion request, abstracted to the two message contents the
service fills in (assistant prompt, user content). -/
structure ChatCompletionRequest where
  assistantContent : String
  userContent : String
deriving Repr, DecidableEq

/-- `message.content` of a returned chat choice. -/
structure ChatResponseMessage where
  content : Option String
deriving Repr, DecidableEq

/-- One chat completion choice. -/
structure ChatChoice where
  message : ChatResponseMessage
deriving Repr, DecidableEq

/-- A chat completion response: its list of choices. -/
structure ChatCompletionResponse where
  choices : List ChatChoice
deriving Repr, DecidableEq

/-- One embedding datum of an embeddings response. -/
structure EmbeddingDatum where
  embedding : List Nat
deriving Repr, DecidableEq

/-- An embeddings response: its `data` list. -/
structure EmbeddingResponse where
  data : List EmbeddingDatum
deriving Repr, DecidableEq

/-- The OpenAI client: deterministic responses to the two request kinds the
service issues. -/
structure OpenAiClient where
  chatCreate : ChatCompletionRequest → Except String ChatCompletionResponse
  embeddingsCreate : String → Except String EmbeddingResponse

/-! ### The article service (`src/api/src/svc/art.rs`) -/

/-- The chat request built by `ArticleService::summarize`. -/
def summarizeRequest (url : String) : ChatCompletionRequest :=
  { assistantContent := "You are an assistant which reads and summarizes articles."
    userContent := "Summarize this link: " ++ url }

/-- `ArticleService::summarize`: one chat call; a missing first choice or
missing content maps to `Error::Internal("missing OpenAI response")`. -/
def summarize (openai : OpenAiClient) (url : String) : Except Error String :=
  match openai.chatCreate (summarizeRequest url) with
  | Except.error e => Except.error (ofOpenAIError e)
  | Except.ok response =>
    match response.choices.head? with
    | none => Except.error (Error.internal "missing OpenAI response" none)
    | some choice =>
      match choice.message.content with
      | none => Except.error (Error.internal "missing OpenAI response" none)
      | some summary => Except.ok summary

/-- The chat request built by `ArticleService::extract_keywords`. -/
def extractKeywordsRequest (url : String) : ChatCompletionRequest :=
  { assistantContent := "Extract the keywords from the provided link. Return the keywords as a list of comma separated values, with a maximum number of 5 keywords"
    userContent := url }

/-- `ArticleService::extract_keywords`: one chat call; the single free-text
response is split on the comma into trimmed tokens. -/
def extract_keywords (openai : OpenAiClient) (url : String) : Except Error (List String) :=
  match openai.chatCreate (extractKeywordsRequest url) with
  | Except.error e => Except.error (ofOpenAIError e)
  | Except.ok response =>
    match response.choices.head? with
    | none => Except.error (Error.internal "missing OpenAI response" none)
    | some choice =>
      match choice.message.content with
      | none => Except.error (Error.internal "missing OpenAI response" none)
      | some text => Except.ok ((text.splitOn ",").map String.trim)

/-- `ArticleService::get_embeddings`: one embeddings call, then
`.data.remove(0).embedding`.  `Vec::remove(0)` on an empty vector panics:
`none` models that panic (there is no `Err` path for an empty `data`,
unlike `summarize` and `extract_keywords`). -/
def get_embeddings (openai : OpenAiClient) (text : String) :
    Option (Except Error (List Nat)) :=
  match openai.embeddingsCreate text with
  | Except.error e => some (Except.error (ofOpenAIError e))
  | Except.ok response =>
    match response.data with
    | [] => none
    | d :: _ => some (Except.ok d.embedding)

/-- `ArticleService::process_article`: summarize the url, extract keywords
from the url, embed the summary, and assemble the record under a fresh id
(`Uuid::new_v4()`, passed here as `id`).  `none` models a panic bubbling
up from `get_embeddings`. -/
def process_article (openai : OpenAiClient) (id : Uuid) (url : String) :
    Option (Except Error Summary) :=
  match summarize openai url with
  | Except.error e => some (Except.error e)
  | Except.ok summary =>
    match extract_keywords openai url with
    | Except.error e => some (Except.error e)
    | Except.ok keywords =>
      match get_embeddings openai summary with
      | none => none
      | some (Except.error e) => some (Except.error e)
      | some (Except.ok embeddings) =>
        some (Except.ok
          { id := id, url := url, summary := summary,
            keywords := keywords, embeddings := embeddings })

/-! ### The store adapter (`src/api/src/db/postgres/summary.rs`)

The `summaries` table is a list of rows in insertion order.  SQL semantics
of the generated statements are modelled: the `url TEXT NOT NULL UNIQUE`
and `id UUID PRIMARY KEY` constraints of `create_table_summaries` make an
`INSERT` with a duplicated url or id fail as a whole (a single multi-row
`INSERT ... VALUES ... RETURNING *` statement is atomic), and an `IN` list
or a `VALUES` clause with zero elements is a SQL syntax error rejected by
the server.  `tokio_postgres::Error` converts to `Error::Internal`. -/

/-- The statement text built by `search_summaries_by_urls`: one `$i`
placeholder per url inside `IN(...)`. -/
def searchQueryStmt (urls : List String) : String :=
  "SELECT * FROM summaries WHERE url IN(" ++
    String.intercalate ", "
      (((List.range urls.length).map fun i => "$" ++ toString (i + 1))) ++ ")"

/-- `PostgresClient::search_summaries_by_urls`: rows whose url is among the
given urls, in table order.  For an empty url list the statement text is
`SELECT * FROM summaries WHERE url IN()`, which is a SQL syntax error. -/
def search_summaries_by_urls (table : List Summary) (urls : List String) :
    Except Error (List Summary) :=
  if urls.isEmpty then
    Except.error (Error.internal "db error: syntax error in empty IN list" none)
  else
    Except.ok (table.filter fun row => urls.contains row.url)

/-- `PostgresClient::insert_summaries`: one multi-row
`INSERT ... RETURNING *` with the caller-supplied ids.  An empty batch
yields a malformed statement; a url or id colliding with the table or
within the batch violates a unique constraint and fails the whole
statement.  On success it returns the persisted rows in input order
together with the new table. -/
def insert_summaries (table : List Summary) (articles : List Summary) :
    Except Error (List Summary × List Summary) :=
  if articles.isEmpty then
    Except.error (Error.internal "db error: syntax error in empty VALUES list" none)
  else if ((table ++ articles).map Summary.url).Nodup ∧
      ((table ++ articles).map Summary.id).Nodup then
    Except.ok (articles, table ++ articles)
  else
    Except.error (Error.internal "db error: duplicate key value violates unique constraint" none)

/-! ### The orchestrator (`ArticleService::process_summaries`)

Each call is embedded as a function from the table, the url batch, the
OpenAI client and the uuid supply (`ids i` is the uuid `Uuid::new_v4`
hands the `i`-th spawned task) to a trace: the store lookups, the per-url
pipeline invocations (in spawn order), the insert calls, the returned
value (`none` = panic) and the table afterwards. -/

/-- Observable behaviour of one `process_summaries` call. -/
structure ProcessTrace where
  lookupCalls : List (List String)
  pipelineCalls : List String
  insertCalls : List (List Summary)
  result : Option (Except Error (List Summary))
  finalTable : List Summary

/-- `join_all` followed by `collect::<Result<Vec<_>, _>>()`: all tasks have
run to completion; a panic in any task propagates (`none`), otherwise the
first error in spawn order is returned, otherwise all values in order. -/
def collectResults : List (Option (Except Error Summary)) →
    Option (Except Error (List Summary))
  | [] => some (Except.ok [])
  | none :: _ => none
  | some r :: rest =>
    match collectResults rest with
    | none => none
    | some restr =>
      match r with
      | Except.error e => some (Except.error e)
      | Except.ok a =>
        match restr with
        | Except.error e => some (Except.error e)
        | Except.ok articles => some (Except.ok (a :: articles))

/-- The parallel fan-out over the missing urls: task `i` runs
`process_article` on the `i`-th missing url with the `i`-th fresh uuid. -/
def runPipelines (openai : OpenAiClient) (ids : Nat → Uuid) (urls : List String) :
    Option (Except Error (List Summary)) :=
  collectResults (urls.enum.map fun p => process_article openai (ids p.1) p.2)

/-- `ArticleService::process_summaries` on a given table and url batch. -/
def process_summaries (openai : OpenAiClient) (ids : Nat → Uuid)
    (table : List Summary) (urls : List String) : ProcessTrace :=
  match search_summaries_by_urls table urls with
  | Except.error e =>
    { lookupCalls := [urls], pipelineCalls := [], insertCalls := [],
      result := some (Except.error e), finalTable := table }
  | Except.ok found_articles =>
    let found_urls := found_articles.map Summary.url
    let not_found_urls := urls.filter fun url => !(found_urls.contains url)
    if not_found_urls.isEmpty then
      { lookupCalls := [urls], pipelineCalls := [], insertCalls := [],
        result := some (Except.ok (found_articles ++ [])), finalTable := table }
    else
      match runPipelines openai ids not_found_urls with
      | none =>
        { lookupCalls := [urls], pipelineCalls := not_found_urls, insertCalls := [],
          result := none, finalTable := table }
      | some (Except.error e) =>
        { lookupCalls := [urls], pipelineCalls := not_found_urls, insertCalls := [],
          result := some (Except.error e), finalTable := table }
      | some (Except.ok new_articles) =>
        match insert_summaries table new_articles with
        | Except.error e =>
          { lookupCalls := [urls], pipelineCalls := not_found_urls,
            insertCalls := [new_articles],
            result := some (Except.error e), finalTable := table }
        | Except.ok (inserted, table2) =>
          { lookupCalls := [urls], pipelineCalls := not_found_urls,
            insertCalls := [new_articles],
            result := some (Except.ok (found_articles ++ inserted)),
            finalTable := table2 }

/-! ### Lemmas about the pipeline and the fan-out -/

/-- A successful pipeline run yields a record carrying the requested url
and the supplied fresh id. -/
theorem process_article_ok_shape (openai : OpenAiClient) (id : Uuid) (url : String)
    (s : Summary) (h : process_article openai id url = some (Except.ok s)) :
    s.url = url ∧ s.id = id := by
  cases hs : summarize openai url with
  | error e => simp [process_article, hs] at h
  | ok summary =>
    cases hk : extract_keywords openai url with
    | error e => simp [process_article, hs, hk] at h
    | ok keywords =>
      cases he : get_embeddings openai summary with
      | none => simp [process_article, hs, hk, he] at h
      | some r =>
        cases r with
        | error e => simp [process_article, hs, hk, he] at h
        | ok emb =>
          simp only [process_article, hs, hk, he, Option.some.injEq,
            Except.ok.injEq] at h
          subst h
          exact ⟨rfl, rfl⟩

/-- Collecting all-successful task results yields all values, in order. -/
theorem collectResults_map_ok {α : Type} (l : List α)
    (f : α → Option (Except Error Summary)) (g : α → Summary)
    (h : ∀ x ∈ l, f x = some (Except.ok (g x))) :
    collectResults (l.map f) = some (Except.ok (l.map g)) := by
  induction l with
  | nil => rfl
  | cons x xs ih =>
    have hx := h x (List.mem_cons_self x xs)
    have hxs := ih fun y hy => h y (List.mem_cons_of_mem x hy)
    simp only [List.map_cons, collectResults, hx, hxs]

/-- If no task panicked, collecting returns a value. -/
theorem collectResults_total :
    ∀ rs : List (Option (Except Error Summary)), (∀ r ∈ rs, r ≠ none) →
      ∃ y, collectResults rs = some y := by
  intro rs
  induction rs with
  | nil => exact fun _ => ⟨Except.ok [], rfl⟩
  | cons r rest ih =>
    intro h
    obtain ⟨y, hy⟩ := ih fun x hx => h x (List.mem_cons_of_mem r hx)
    cases r with
    | none => exact absurd rfl (h none (List.mem_cons_self _ _))
    | some v =>
      cases v with
      | error e => exact ⟨Except.error e, by simp [collectResults, hy]⟩
      | ok a =>
        cases y with
        | error e => exact ⟨Except.error e, by simp [collectResults, hy]⟩
        | ok rest2 => exact ⟨Except.ok (a :: rest2), by simp [collectResults, hy]⟩

/-- If no task panicked and at least one failed, collecting returns an
error. -/
theorem collectResults_error :
    ∀ rs : List (Option (Except Error Summary)), (∀ r ∈ rs, r ≠ none) →
      (∃ r ∈ rs, ∃ e, r = some (Except.error e)) →
      ∃ e, collectResults rs = some (Except.error e) := by
  intro rs
  induction rs with
  | nil => intro _ herr; simp at herr
  | cons r rest ih =>
    intro hnone herr
    have hrest : ∀ x ∈ rest, x ≠ none := fun x hx => hnone x (List.mem_cons_of_mem r hx)
    cases r with
    | none => exact absurd rfl (hnone none (List.mem_cons_self _ _))
    | some v =>
      obtain ⟨y, hy⟩ := collectResults_total rest hrest
      cases v with
      | error e => exact ⟨e, by simp [collectResults, hy]⟩
      | ok a =>
        obtain ⟨r0, hr0mem, e0, hr0⟩ := herr
        rcases List.mem_cons.mp hr0mem with h1 | h1
        · rw [hr0] at h1
          simp at h1
        · obtain ⟨e, he⟩ := ih hrest ⟨r0, h1, e0, hr0⟩
          exact ⟨e, by simp [collectResults, he]⟩

/-- When every missing url enriches successfully, the fan-out returns the
records in spawn order. -/
theorem runPipelines_ok (openai : OpenAiClient) (ids : Nat → Uuid)
    (enrich : Nat → String → Summary) (urls : List String)
    (h : ∀ i url, url ∈ urls →
      process_article openai (ids i) url = some (Except.ok (enrich i url))) :
    runPipelines openai ids urls =
      some (Except.ok (urls.enum.map fun p => enrich p.1 p.2)) := by
  unfold runPipelines
  exact collectResults_map_ok urls.enum _ _ fun p hp =>
    h p.1 p.2 (List.snd_mem_of_mem_enum hp)

/-- The urls of the fan-out's output, in order. -/
theorem enumMap_url (enrich : Nat → String → Summary) (urls : List String)
    (hurl : ∀ i u, u ∈ urls → (enrich i u).url = u) :
    ((urls.enum.map fun p => enrich p.1 p.2).map Summary.url) = urls := by
  rw [List.map_map]
  have h : urls.enum.map (Summary.url ∘ fun p => enrich p.1 p.2) =
      urls.enum.map Prod.snd := by
    apply List.map_congr_left
    intro p hp
    exact hurl p.1 p.2 (List.snd_mem_of_mem_enum hp)
  rw [h, List.enum_map_snd]

/-- The ids of the fan-out's output: the fresh uuids in spawn order. -/
theorem enumMap_id (openai : OpenAiClient) (ids : Nat → Uuid)
    (enrich : Nat → String → Summary) (urls : List String)
    (h : ∀ i url, url ∈ urls →
      process_article openai (ids i) url = some (Except.ok (enrich i url))) :
    ((urls.enum.map fun p => enrich p.1 p.2).map Summary.id) =
      (List.range urls.length).map ids := by
  rw [List.map_map]
  have h2 : urls.enum.map (Summary.id ∘ fun p => enrich p.1 p.2) =
      urls.enum.map (ids ∘ Prod.fst) := by
    apply List.map_congr_left
    intro p hp
    have hmem := List.snd_mem_of_mem_enum hp
    exact (process_article_ok_shape openai (ids p.1) p.2 _ (h p.1 p.2 hmem)).2
  rw [h2, ← List.map_map, List.enum_map_fst]

/-! ### The hit/miss split of `process_summaries` -/

/-- The hit rows: what `search_summaries_by_urls` returns for a non-empty
batch (its `found_articles` local). -/
def foundArticles (table : List Summary) (urls : List String) : List Summary :=
  table.filter fun row => urls.contains row.url

/-- The miss set (the `not_found_urls` local): input urls, duplicates kept,
whose url is not among the hit rows' urls. -/
def notFoundUrls (table : List Summary) (urls : List String) : List String :=
  urls.filter fun url => !(((foundArticles table urls).map Summary.url).contains url)

/-- On a non-empty batch the lookup succeeds and `process_summaries`
reduces to the hit/miss split. -/
theorem process_summaries_eq (openai : OpenAiClient) (ids : Nat → Uuid)
    (table : List Summary) (urls : List String) (h : urls ≠ []) :
    process_summaries openai ids table urls =
      if (notFoundUrls table urls).isEmpty then
        { lookupCalls := [urls], pipelineCalls := [], insertCalls := [],
          result := some (Except.ok (foundArticles table urls ++ [])),
          finalTable := table }
      else
        match runPipelines openai ids (notFoundUrls table urls) with
        | none =>
          { lookupCalls := [urls], pipelineCalls := notFoundUrls table urls,
            insertCalls := [], result := none, finalTable := table }
        | some (Except.error e) =>
          { lookupCalls := [urls], pipelineCalls := notFoundUrls table urls,
            insertCalls := [], result := some (Except.error e),
            finalTable := table }
        | some (Except.ok new_articles) =>
          match insert_summaries table new_articles with
          | Except.error e =>
            { lookupCalls := [urls], pipelineCalls := notFoundUrls table urls,
              insertCalls := [new_articles], result := some (Except.error e),
              finalTable := table }
          | Except.ok (inserted, table2) =>
            { lookupCalls := [urls], pipelineCalls := notFoundUrls table urls,
              insertCalls := [new_articles],
              result := some (Except.ok (foundArticles table urls ++ inserted)),
              finalTable := table2 } := by
  have hne : urls.isEmpty = false := by
    cases urls with
    | nil => exact absurd rfl h
    | cons a l => rfl
  simp only [process_summaries, search_summaries_by_urls, hne, Bool.false_eq_true,
    if_false, foundArticles, notFoundUrls]

/-- A url is among the hit rows' urls iff it is both in the table and in
the batch. -/
theorem mem_foundArticles_map_url (table : List Summary) (urls : List String)
    (u : String) :
    u ∈ (foundArticles table urls).map Summary.url ↔
      u ∈ table.map Summary.url ∧ u ∈ urls := by
  simp only [foundArticles, List.mem_map, List.mem_filter, List.elem_eq_mem,
    decide_eq_true_eq]
  constructor
  · rintro ⟨r, ⟨hrt, hru⟩, rfl⟩
    exact ⟨⟨r, hrt, rfl⟩, hru⟩
  · rintro ⟨⟨r, hrt, rfl⟩, hu⟩
    exact ⟨r, ⟨hrt, hu⟩, rfl⟩

/-- A url is in the miss set iff it is in the batch but not in the table. -/
theorem mem_notFoundUrls (table : List Summary) (urls : List String)
    (u : String) :
    u ∈ notFoundUrls table urls ↔ u ∈ urls ∧ u ∉ table.map Summary.url := by
  simp only [notFoundUrls, List.mem_filter, List.elem_eq_mem, Bool.not_eq_eq_eq_not,
    Bool.not_true, decide_eq_false_iff_not, mem_foundArticles_map_url]
  tauto

/-- A url absent from the table keeps its full multiplicity in the miss
set. -/
theorem count_notFoundUrls (table : List Summary) (urls : List String)
    (u : String) (hu : u ∉ table.map Summary.url) :
    (notFoundUrls table urls).count u = urls.count u := by
  unfold notFoundUrls
  apply List.count_filter
  have hnotfound : u ∉ (foundArticles table urls).map Summary.url := fun hmem =>
    hu ((mem_foundArticles_map_url table urls u).mp hmem).1
  simp [hnotfound]

/-- The hit rows' urls are distinct when the table's urls are. -/
theorem foundArticles_map_url_nodup (table : List Summary) (urls : List String)
    (ht : (table.map Summary.url).Nodup) :
    ((foundArticles table urls).map Summary.url).Nodup :=
  List.Nodup.sublist (List.Sublist.map Summary.url (List.filter_sublist table)) ht

/-- The miss set is distinct when the batch is. -/
theorem notFoundUrls_nodup (table : List Summary) (urls : List String)
    (hnd : urls.Nodup) : (notFoundUrls table urls).Nodup :=
  List.Nodup.filter _ hnd

/-- For a distinct batch over a url-unique table, the hit urls followed by
the miss set are a permutation of the batch. -/
theorem found_notFound_perm (table : List Summary) (urls : List String)
    (hnd : urls.Nodup) (ht : (table.map Summary.url).Nodup) :
    ((foundArticles table urls).map Summary.url ++ notFoundUrls table urls).Perm urls := by
  have hdisj : ((foundArticles table urls).map Summary.url).Disjoint
      (notFoundUrls table urls) := by
    intro a ha hb
    exact ((mem_notFoundUrls table urls a).mp hb).2
      ((mem_foundArticles_map_url table urls a).mp ha).1
  have happ : ((foundArticles table urls).map Summary.url ++
      notFoundUrls table urls).Nodup :=
    List.nodup_append.mpr
      ⟨foundArticles_map_url_nodup table urls ht,
       notFoundUrls_nodup table urls hnd, hdisj⟩
  apply (List.perm_ext_iff_of_nodup happ hnd).mpr
  intro a
  simp only [List.mem_append, mem_foundArticles_map_url, mem_notFoundUrls]
  tauto

/-- For a distinct batch over a url-unique table, the number of hit rows is
the number of batch urls present in the table. -/
theorem foundArticles_length (table : List Summary) (urls : List String)
    (hnd : urls.Nodup) (ht : (table.map Summary.url).Nodup) :
    (foundArticles table urls).length =
      (urls.filter fun u => (table.map Summary.url).contains u).length := by
  have h1 : (foundArticles table urls).length =
      ((foundArticles table urls).map Summary.url).length := by
    rw [List.length_map]
  rw [h1]
  apply List.Perm.length_eq
  apply (List.perm_ext_iff_of_nodup (foundArticles_map_url_nodup table urls ht)
    (List.Nodup.filter _ hnd)).mpr
  intro a
  simp only [mem_foundArticles_map_url, List.mem_filter, List.elem_eq_mem,
    decide_eq_true_eq]
  tauto

/-- Splitting a list by a predicate splits its length. -/
theorem length_filter_split {α : Type} (l : List α) (p : α → Bool) :
    (l.filter p).length + (l.filter fun a => !p a).length = l.length := by
  induction l with
  | nil => rfl
  | cons x xs ih =>
    cases hx : p x with
    | true => simp [List.filter_cons, hx]; omega
    | false => simp [List.filter_cons, hx]; omega

/-- The miss set's size is the batch size minus the number of batch urls
present in the table (no distinctness needed). -/
theorem notFoundUrls_length (table : List Summary) (urls : List String) :
    (notFoundUrls table urls).length =
      urls.length - (urls.filter fun u => (table.map Summary.url).contains u).length := by
  have hsplit := length_filter_split urls
    (fun u => ((foundArticles table urls).map Summary.url).contains u)
  have hcongr : (urls.filter fun u => ((foundArticles table urls).map Summary.url).contains u)
      = urls.filter fun u => (table.map Summary.url).contains u := by
    apply List.filter_congr
    intro a ha
    simp only [List.elem_eq_mem, decide_eq_decide, mem_foundArticles_map_url]
    tauto
  rw [hcongr] at hsplit
  have hnf : notFoundUrls table urls = urls.filter
      (fun u => !((foundArticles table urls).map Summary.url).contains u) := rfl
  rw [hnf]
  omega

/-! ### Concrete clients and records used to instantiate theorems -/

/-- A healthy client: every chat call answers `"S"`, every embeddings call
answers the one-float vector `[1]`. -/
def openaiW : OpenAiClient :=
  { chatCreate := fun _ => Except.ok { choices := [{ message := { content := some "S" } }] }
    embeddingsCreate := fun _ => Except.ok { data := [{ embedding := [1] }] } }

/-- A failing client: every call fails with cause `"boom"`. -/
def openaiFailW : OpenAiClient :=
  { chatCreate := fun _ => Except.error "boom"
    embeddingsCreate := fun _ => Except.error "boom" }

/-- A degenerate client: every call succeeds with an empty response. -/
def openaiEmptyW : OpenAiClient :=
  { chatCreate := fun _ => Except.ok { choices := [] }
    embeddingsCreate := fun _ => Except.ok { data := [] } }

/-- What the healthy client enriches any url to, under fresh id `i`. -/
def enrichW (i : Nat) (url : String) : Summary :=
  { id := i, url := url, summary := "S",
    keywords := ("S".splitOn ",").map String.trim, embeddings := [1] }

/-- Under the healthy client every pipeline run succeeds with `enrichW`. -/
theorem enrichW_spec (i : Nat) (url : String) :
    process_article openaiW i url = some (Except.ok (enrichW i url)) := rfl

/-- Under the failing client every pipeline run fails with the converted
cause. -/
theorem processFailW (i : Nat) (url : String) :
    process_article openaiFailW i url = some (Except.error (ofOpenAIError "boom")) := rfl

/-- A sample record. -/
def sampleSummary (id : Uuid) (url : String) : Summary :=
  { id := id, url := url, summary := "s", keywords := ["k"], embeddings := [1] }

/-! ### Claim theorems -/

/-- C5: empty input.  The claim says `process([])` returns `[]` with zero
store operations and zero collaborator invocations.  The code has no
early return: it always issues one lookup, whose statement for the empty
batch is `SELECT * FROM summaries WHERE url IN()` — a SQL syntax error —
so the call performs one store lookup and returns an error instead of
`[]` (zero pipeline invocations and zero inserts do hold). -/
theorem C5_empty_input (openai : OpenAiClient) (ids : Nat → Uuid)
    (table : List Summary) :
    searchQueryStmt [] = "SELECT * FROM summaries WHERE url IN()" ∧
    (process_summaries openai ids table []).lookupCalls = [[]] ∧
    (∃ e, (process_summaries openai ids table []).result = some (Except.error e)) ∧
    (process_summaries openai ids table []).pipelineCalls = [] ∧
    (process_summaries openai ids table []).insertCalls = [] ∧
    (process_summaries openai ids table []).finalTable = table := by
  refine ⟨rfl, rfl, ⟨Error.internal "db error: syntax error in empty IN list" none, rfl⟩,
    rfl, rfl, rfl⟩

/-- C7 counterexample: the store's batch insert does not assign the ids —
the persisted id is exactly the caller-supplied one and varies with it
(ids are assigned earlier, by `process_article` via `Uuid::new_v4`). -/
theorem C7_counterexample :
    insert_summaries [] [sampleSummary 7 "u"] =
      Except.ok ([sampleSummary 7 "u"], [sampleSummary 7 "u"]) ∧
    insert_summaries [] [sampleSummary 8 "u"] =
      Except.ok ([sampleSummary 8 "u"], [sampleSummary 8 "u"]) ∧
    (7 : Uuid) ≠ 8 := by
  refine ⟨?_, ?_, by decide⟩ <;>
    simp [insert_summaries, sampleSummary]

/-- C7 amended: ids are assigned by the pipeline (`process_article`), and
the store's batch insert persists the records with those caller-assigned
ids in one atomic statement, returning them in exactly the input order;
a url already present makes the whole batch fail with a uniqueness
violation and nothing is persisted. -/
theorem C7_insert_batch (table articles : List Summary) (hne : articles ≠ []) :
    (∀ openai id url s, process_article openai id url = some (Except.ok s) →
      s.id = id) ∧
    (((table ++ articles).map Summary.url).Nodup ∧
        ((table ++ articles).map Summary.id).Nodup →
      insert_summaries table articles = Except.ok (articles, table ++ articles)) ∧
    ((∃ a ∈ articles, a.url ∈ table.map Summary.url) →
      ∃ e, insert_summaries table articles = Except.error e) := by
  have hE : articles.isEmpty = false := by
    cases articles with
    | nil => exact absurd rfl hne
    | cons x xs => rfl
  refine ⟨fun openai id url s h => (process_article_ok_shape openai id url s h).2, ?_, ?_⟩
  · intro h
    simp only [insert_summaries, hE, Bool.false_eq_true, if_false, if_pos h]
  · rintro ⟨a, ha, hurl⟩
    have hnd : ¬(((table ++ articles).map Summary.url).Nodup ∧
        ((table ++ articles).map Summary.id).Nodup) := by
      rintro ⟨h1, -⟩
      rw [List.map_append] at h1
      exact List.disjoint_of_nodup_append h1 hurl (List.mem_map.mpr ⟨a, ha, rfl⟩)
    refine ⟨Error.internal "db error: duplicate key value violates unique constraint" none, ?_⟩
    simp only [insert_summaries, hE, Bool.false_eq_true, if_false, if_neg hnd]

/-- C7 witness: a successful one-record batch keeps its caller id, and the
same url inserted again fails. -/
theorem C7_insert_batch_witness :
    insert_summaries [] [sampleSummary 7 "u"] =
      Except.ok ([sampleSummary 7 "u"], [] ++ [sampleSummary 7 "u"]) ∧
    (∃ e, insert_summaries [sampleSummary 7 "u"] [sampleSummary 9 "u"] =
      Except.error e) :=
  ⟨(C7_insert_batch [] [sampleSummary 7 "u"] (by simp)).2.1 (by simp [sampleSummary]),
   (C7_insert_batch [sampleSummary 7 "u"] [sampleSummary 9 "u"] (by simp)).2.2
     ⟨sampleSummary 9 "u", by simp [sampleSummary]⟩⟩

/-- C9: the embedding step panics (rather than erroring) on an empty
`data` list — `Vec::remove(0)` is unguarded — while `summarize` and
`extract_keywords` map an empty `choices` list to the explicit internal
error; a non-empty `data` yields its first embedding. -/
theorem C9_embeddings_panic (openai : OpenAiClient) (text url : String) :
    (openai.embeddingsCreate text = Except.ok { data := [] } →
      get_embeddings openai text = none) ∧
    (∀ d rest, openai.embeddingsCreate text = Except.ok { data := d :: rest } →
      get_embeddings openai text = some (Except.ok d.embedding)) ∧
    (openai.chatCreate (summarizeRequest url) = Except.ok { choices := [] } →
      summarize openai url = Except.error (Error.internal "missing OpenAI response" none)) ∧
    (openai.chatCreate (extractKeywordsRequest url) = Except.ok { choices := [] } →
      extract_keywords openai url =
        Except.error (Error.internal "missing OpenAI response" none)) := by
  refine ⟨?_, ?_, ?_, ?_⟩
  · intro h; simp [get_embeddings, h]
  · intro d rest h; simp [get_embeddings, h]
  · intro h; simp [summarize, h]
  · intro h; simp [extract_keywords, h]

/-- C9 witness: the degenerate client panics the embedding step and errors
the summarize step. -/
theorem C9_embeddings_panic_witness :
    get_embeddings openaiEmptyW "t" = none ∧
    summarize openaiEmptyW "u" =
      Except.error (Error.internal "missing OpenAI response" none) :=
  ⟨(C9_embeddings_panic openaiEmptyW "t" "u").1 rfl,
   (C9_embeddings_panic openaiEmptyW "t" "u").2.2.1 rfl⟩

/-- C6: the pipeline composes the three collaborator calls — summary from
`summarize(url)`, keywords the single free-text keyword response split on
commas into trimmed tokens, embedding from `embed(summaryText)` — and any
collaborator failure aborts it with the converted error carrying the
underlying cause. -/
theorem C6_pipeline_composition (openai : OpenAiClient) (id : Uuid) (url : String) :
    (∀ s kws emb, summarize openai url = Except.ok s →
      extract_keywords openai url = Except.ok kws →
      get_embeddings openai s = some (Except.ok emb) →
      process_article openai id url = some (Except.ok
        { id := id, url := url, summary := s, keywords := kws, embeddings := emb })) ∧
    (∀ response choice text rest,
      openai.chatCreate (extractKeywordsRequest url) = Except.ok response →
      response.choices = choice :: rest →
      choice.message.content = some text →
      extract_keywords openai url = Except.ok ((text.splitOn ",").map String.trim)) ∧
    (∀ e, openai.chatCreate (summarizeRequest url) = Except.error e →
      process_article openai id url = some (Except.error (ofOpenAIError e))) ∧
    (∀ s e, summarize openai url = Except.ok s →
      openai.chatCreate (extractKeywordsRequest url) = Except.error e →
      process_article openai id url = some (Except.error (ofOpenAIError e))) ∧
    (∀ s kws e, summarize openai url = Except.ok s →
      extract_keywords openai url = Except.ok kws →
      openai.embeddingsCreate s = Except.error e →
      process_article openai id url = some (Except.error (ofOpenAIError e))) := by
  refine ⟨?_, ?_, ?_, ?_, ?_⟩
  · intro s kws emb h1 h2 h3
    simp [process_article, h1, h2, h3]
  · intro response choice text rest h1 h2 h3
    simp [extract_keywords, h1, h2, h3]
  · intro e h
    simp [process_article, summarize, h]
  · intro s e h1 h2
    simp [process_article, h1, extract_keywords, h2]
  · intro s kws e h1 h2 h3
    simp [process_article, h1, h2, get_embeddings, h3]

/-- C6 witness: the healthy client assembles the record; the failing
client aborts with the converted cause. -/
theorem C6_pipeline_composition_witness :
    process_article openaiW 5 "u" = some (Except.ok
      { id := 5, url := "u", summary := "S",
        keywords := ("S".splitOn ",").map String.trim, embeddings := [1] }) ∧
    process_article openaiFailW 5 "u" = some (Except.error (ofOpenAIError "boom")) :=
  ⟨(C6_pipeline_composition openaiW 5 "u").1 "S" (("S".splitOn ",").map String.trim)
      [1] rfl rfl rfl,
   (C6_pipeline_composition openaiFailW 5 "u").2.2.1 "boom" rfl⟩

/-- C2: all-or-nothing.  If the miss set is non-empty, no pipeline task
panics and at least one fails, then `process_summaries` returns an error,
nothing is handed to the store's insert, and the table is unchanged. -/
theorem C2_all_or_nothing (openai : OpenAiClient) (ids : Nat → Uuid)
    (table : List Summary) (urls : List String)
    (hmiss : notFoundUrls table urls ≠ [])
    (hnopanic : ∀ p ∈ (notFoundUrls table urls).enum,
      process_article openai (ids p.1) p.2 ≠ none)
    (hfail : ∃ p ∈ (notFoundUrls table urls).enum, ∃ e,
      process_article openai (ids p.1) p.2 = some (Except.error e)) :
    ∃ e, (process_summaries openai ids table urls).result = some (Except.error e) ∧
      (process_summaries openai ids table urls).insertCalls = [] ∧
      (process_summaries openai ids table urls).finalTable = table := by
  have hne : urls ≠ [] := by
    intro h
    subst h
    exact hmiss rfl
  have hE : (notFoundUrls table urls).isEmpty = false := by
    cases hnf : notFoundUrls table urls with
    | nil => exact absurd hnf hmiss
    | cons x xs => rfl
  have hrp : ∃ e, runPipelines openai ids (notFoundUrls table urls) =
      some (Except.error e) := by
    unfold runPipelines
    apply collectResults_error
    · intro r hr
      obtain ⟨p, hp, rfl⟩ := List.mem_map.mp hr
      exact hnopanic p hp
    · obtain ⟨p, hp, e, hpe⟩ := hfail
      exact ⟨_, List.mem_map.mpr ⟨p, hp, rfl⟩, e, hpe⟩
  obtain ⟨e, he⟩ := hrp
  rw [process_summaries_eq openai ids table urls hne]
  simp only [hE, Bool.false_eq_true, if_false, he]
  refine ⟨e, ?_⟩
  simp

/-- C2 witness: one missing url whose enrichment fails. -/
theorem C2_all_or_nothing_witness :
    ∃ e, (process_summaries openaiFailW (fun i => i) [] ["a"]).result =
        some (Except.error e) ∧
      (process_summaries openaiFailW (fun i => i) [] ["a"]).insertCalls = [] ∧
      (process_summaries openaiFailW (fun i => i) [] ["a"]).finalTable = [] :=
  C2_all_or_nothing openaiFailW (fun i => i) [] ["a"]
    (by decide)
    (fun p _ => by
      rw [processFailW]
      exact fun h => Option.noConfusion h)
    ⟨(0, "a"), by decide, ofOpenAIError "boom", processFailW 0 "a"⟩

/-- C8: no input dedup.  A url `u` absent from the table occurring `m > 1`
times in the batch is enriched `m` times (once per occurrence) and `m`
records with that url are handed to the batch insert. -/
theorem C8_no_dedup (openai : OpenAiClient) (ids : Nat → Uuid)
    (enrich : Nat → String → Summary) (table : List Summary) (urls : List String)
    (u : String) (m : Nat)
    (hu : u ∉ table.map Summary.url)
    (hm : urls.count u = m) (hgt : 1 < m)
    (henrich : ∀ i url, url ∈ urls →
      process_article openai (ids i) url = some (Except.ok (enrich i url))) :
    (process_summaries openai ids table urls).pipelineCalls.count u = m ∧
    ∃ batch, (process_summaries openai ids table urls).insertCalls = [batch] ∧
      (batch.map Summary.url).count u = m := by
  have humem : u ∈ urls := by
    apply List.count_pos_iff.mp
    omega
  have hne : urls ≠ [] := by
    intro h
    subst h
    simp at humem
  have hnfmem : u ∈ notFoundUrls table urls :=
    (mem_notFoundUrls table urls u).mpr ⟨humem, hu⟩
  have hE : (notFoundUrls table urls).isEmpty = false := by
    cases hnf : notFoundUrls table urls with
    | nil => rw [hnf] at hnfmem; simp at hnfmem
    | cons x xs => rfl
  have henrich2 : ∀ i v, v ∈ notFoundUrls table urls →
      process_article openai (ids i) v = some (Except.ok (enrich i v)) :=
    fun i v hv => henrich i v ((mem_notFoundUrls table urls v).mp hv).1
  have hrp := runPipelines_ok openai ids enrich (notFoundUrls table urls) henrich2
  have hcount : (notFoundUrls table urls).count u = m := by
    rw [count_notFoundUrls table urls u hu, hm]
  have hbatchurl : (((notFoundUrls table urls).enum.map fun p => enrich p.1 p.2).map
      Summary.url) = notFoundUrls table urls :=
    enumMap_url enrich (notFoundUrls table urls) fun i v hv =>
      (process_article_ok_shape openai (ids i) v _ (henrich2 i v hv)).1
  rw [process_summaries_eq openai ids table urls hne]
  simp only [hE, Bool.false_eq_true, if_false, hrp]
  cases hins : insert_summaries table
      ((notFoundUrls table urls).enum.map fun p => enrich p.1 p.2) with
  | error e =>
    exact ⟨hcount, _, rfl, by rw [hbatchurl]; exact hcount⟩
  | ok pr =>
    exact ⟨hcount, _, rfl, by rw [hbatchurl]; exact hcount⟩

/-- C8 witness: the same missing url twice in one batch. -/
theorem C8_no_dedup_witness :
    (process_summaries openaiW (fun i => i) [] ["a", "a"]).pipelineCalls.count "a" = 2 ∧
    ∃ batch, (process_summaries openaiW (fun i => i) [] ["a", "a"]).insertCalls = [batch] ∧
      (batch.map Summary.url).count "a" = 2 :=
  C8_no_dedup openaiW (fun i => i) enrichW [] ["a", "a"] "a" 2
    (by simp) rfl (by decide) (fun i url _ => enrichW_spec i url)

/-- C1 (amended to non-empty batches): for a non-empty list of distinct
urls over a url-unique, id-unique table, with every missing enrichment
succeeding and fresh injective uuids, `process_summaries` returns ok with
exactly `n` records whose urls are a permutation of the input, and the
per-url enrichment pipeline is invoked exactly `n - k` times, where `k` is
the number of input urls already present in the table. -/
theorem C1_cache_correctness (openai : OpenAiClient) (ids : Nat → Uuid)
    (enrich : Nat → String → Summary) (table : List Summary) (urls : List String)
    (hne : urls ≠ []) (hnd : urls.Nodup)
    (hturl : (table.map Summary.url).Nodup) (htid : (table.map Summary.id).Nodup)
    (henrich : ∀ i url, url ∈ urls →
      process_article openai (ids i) url = some (Except.ok (enrich i url)))
    (hinj : Function.Injective ids)
    (hfresh : ∀ i, ids i ∉ table.map Summary.id) :
    ∃ res, (process_summaries openai ids table urls).result = some (Except.ok res) ∧
      res.length = urls.length ∧
      (res.map Summary.url).Perm urls ∧
      (process_summaries openai ids table urls).pipelineCalls.length =
        urls.length - (urls.filter fun v => (table.map Summary.url).contains v).length := by
  have hperm := found_notFound_perm table urls hnd hturl
  have hnk := notFoundUrls_length table urls
  rw [process_summaries_eq openai ids table urls hne]
  cases hE : (notFoundUrls table urls).isEmpty with
  | true =>
    have hnil : notFoundUrls table urls = [] := List.isEmpty_iff.mp hE
    rw [hnil] at hperm hnk
    rw [List.append_nil] at hperm
    refine ⟨foundArticles table urls ++ [], by simp, ?_, ?_, ?_⟩
    · rw [List.append_nil]
      have hlen := hperm.length_eq
      rwa [List.length_map] at hlen
    · rw [List.append_nil]
      exact hperm
    · simp only [List.length_nil] at hnk
      simpa using hnk
  | false =>
    have henrich2 : ∀ i v, v ∈ notFoundUrls table urls →
        process_article openai (ids i) v = some (Except.ok (enrich i v)) :=
      fun i v hv => henrich i v ((mem_notFoundUrls table urls v).mp hv).1
    have hrp := runPipelines_ok openai ids enrich (notFoundUrls table urls) henrich2
    have hurl2 : (((notFoundUrls table urls).enum.map fun p => enrich p.1 p.2).map
        Summary.url) = notFoundUrls table urls :=
      enumMap_url enrich (notFoundUrls table urls) fun i v hv =>
        (process_article_ok_shape openai (ids i) v _ (henrich2 i v hv)).1
    have hid2 : (((notFoundUrls table urls).enum.map fun p => enrich p.1 p.2).map
        Summary.id) = (List.range (notFoundUrls table urls).length).map ids :=
      enumMap_id openai ids enrich (notFoundUrls table urls) henrich2
    have hnodup_url : ((table ++
        ((notFoundUrls table urls).enum.map fun p => enrich p.1 p.2)).map
          Summary.url).Nodup := by
      rw [List.map_append, hurl2]
      exact List.nodup_append.mpr
        ⟨hturl, notFoundUrls_nodup table urls hnd,
         fun a ha hb => ((mem_notFoundUrls table urls a).mp hb).2 ha⟩
    have hnodup_id : ((table ++
        ((notFoundUrls table urls).enum.map fun p => enrich p.1 p.2)).map
          Summary.id).Nodup := by
      rw [List.map_append, hid2]
      refine List.nodup_append.mpr
        ⟨htid, List.Nodup.map hinj (List.nodup_range _), ?_⟩
      intro a ha hb
      obtain ⟨i, hi, rfl⟩ := List.mem_map.mp hb
      exact hfresh i ha
    have houtne :
        (((notFoundUrls table urls).enum.map fun p => enrich p.1 p.2)).isEmpty = false := by
      have h1 : notFoundUrls table urls ≠ [] := by
        intro h
        rw [h] at hE
        simp at hE
      cases hnf : notFoundUrls table urls with
      | nil => exact absurd hnf h1
      | cons x xs => rfl
    have hins : insert_summaries table
        ((notFoundUrls table urls).enum.map fun p => enrich p.1 p.2) =
        Except.ok ((notFoundUrls table urls).enum.map fun p => enrich p.1 p.2,
          table ++ ((notFoundUrls table urls).enum.map fun p => enrich p.1 p.2)) := by
      simp only [insert_summaries, houtne, Bool.false_eq_true, if_false]
      rw [if_pos ⟨hnodup_url, hnodup_id⟩]
    simp only [hE, Bool.false_eq_true, if_false, hrp, hins]
    refine ⟨foundArticles table urls ++
      ((notFoundUrls table urls).enum.map fun p => enrich p.1 p.2), rfl, ?_, ?_, ?_⟩
    · have hlen := hperm.length_eq
      rw [List.length_append, List.length_map] at hlen
      rw [List.length_append, List.length_map, List.enum_length]
      omega
    · rw [List.map_append, hurl2]
      exact hperm
    · exact hnk

/-- C1 witness: one distinct url over the empty table with the healthy
client. -/
theorem C1_cache_correctness_witness :
    ∃ res, (process_summaries openaiW (fun i => i) [] ["a"]).result =
        some (Except.ok res) ∧
      res.length = (["a"] : List String).length ∧
      (res.map Summary.url).Perm ["a"] ∧
      (process_summaries openaiW (fun i => i) [] ["a"]).pipelineCalls.length =
        (["a"] : List String).length -
          ((["a"] : List String).filter fun v =>
            (([] : List Summary).map Summary.url).contains v).length :=
  C1_cache_correctness openaiW (fun i => i) enrichW [] ["a"]
    (by decide) (by decide) (by decide) (by decide)
    (fun i url _ => enrichW_spec i url) (fun a b h => h) (by simp)

/-- C1 counterexample: the claim quantifies over every list of distinct
urls, including the empty one, but `process([])` returns an error (the
empty `IN()` lookup) rather than zero records, even under a healthy
client and an empty store. -/
theorem C1_counterexample :
    (process_summaries openaiW (fun i => i) [] []).result =
      some (Except.error (Error.internal "db error: syntax error in empty IN list" none)) ∧
    ∀ res, (process_summaries openaiW (fun i => i) [] []).result ≠
      some (Except.ok res) := by
  constructor
  · rfl
  · intro res h
    rw [show (process_summaries openaiW (fun i => i) [] []).result =
      some (Except.error
        (Error.internal "db error: syntax error in empty IN list" none)) from rfl] at h
    exact Except.noConfusion (Option.some.inj h)

end Newsie
